import Mathlib

/-!
# Verification development for the TwitchLaser engraver core

This file gives a shallow embedding, over `ℚ` and `List`, of the parts of the
TwitchLaser Python sources that the checked properties concern:

* `src/laser_controller.py` — `LaserController.send_gcode`, the line-oriented
  streaming loop with GRBL-style acknowledgements (modelled over the sequence
  of lines that `_read_line` yields, a `None` entry standing for a read
  timeout);
* `src/gcode_generator.py` — the arc-fitting helpers and
  `GCodeGenerator.generate`, with machine coordinates as exact rationals and
  each emitted G-code line as a constructor of an inductive type (the text of
  `;` comment lines is abstracted away, and the square-root comparisons of the
  Python code are carried out by exact equivalent rational tests);
* `src/layout_manager.py` — placements, `_is_space_empty`,
  `find_empty_space` (with the `random.shuffle` call abstracted into a
  reordering parameter and the unbounded shrink recursion driven by an
  explicit fuel argument), `add_placement` and `get_statistics`;
* `src/main.py` — the step of `process_queue` that records a placement after
  a successful engrave.

Floating-point numbers of the source are modelled as exact rationals, and
Python's `round` (banker's rounding) and `int` (truncation toward zero) get
explicit rational counterparts.
-/

/-! ## Streaming controller (`src/laser_controller.py`) -/

/-- Leading and trailing whitespace removed, on the character list (Python's
`str.strip()` / Lean's `String.trim`, written out over `List Char` so that it
evaluates by kernel reduction). -/
def trimChars (cs : List Char) : List Char :=
  ((cs.dropWhile Char.isWhitespace).reverse.dropWhile Char.isWhitespace).reverse

/-- Does the character list `s` start with the pattern `pat`? -/
def charsStartWith : List Char → List Char → Bool
  | _, [] => true
  | [], _ :: _ => false
  | c :: cs, p :: ps => (c = p) && charsStartWith cs ps

/-- `s.lower()`, character by character. -/
def strLower (s : String) : String :=
  String.mk (s.data.map Char.toLower)

/-- `s.startswith(pat)`. -/
def strStarts (s pat : String) : Bool :=
  charsStartWith s.data pat.data

/-- `l.split(';')[0].strip()` of `send_gcode`: the part of a G-code line in
front of the first `;`, with surrounding whitespace removed. -/
def stripComment (l : String) : String :=
  String.mk (trimChars (l.data.takeWhile (fun c => c ≠ ';')))

/-- The command list that `send_gcode` actually streams: every input line is
comment-stripped, and lines that become empty are dropped. -/
def gcodeCommands (gcodeLines : List String) : List String :=
  (gcodeLines.map stripComment).filter (fun c => c ≠ "")

/-- How the `while True` reader loop of `send_gcode` reacts to one line
returned by `_read_line`. -/
inductive RespKind where
  | skip
  | ack
  | errAlarm
  deriving DecidableEq, Repr

/-- Classification of a response line, following the reader loop of
`send_gcode`: `[echo:`, `<`, `[gc:`, `[msg:` prefixes are skipped, the exact
line `ok` (lower-cased) acknowledges, `error`/`alarm` prefixes break out of
the read loop without aborting, and any other line simply makes the loop read
again, which is the same outward behaviour as a skip. -/
def classifyResp (resp : String) : RespKind :=
  let lc := strLower resp
  if strStarts lc "[echo:" ∨ strStarts lc "<" ∨ strStarts lc "[gc:" ∨ strStarts lc "[msg:" then
    .skip
  else if lc = "ok" then .ack
  else if strStarts lc "error" ∨ strStarts lc "alarm" then .errAlarm
  else .skip

/-- Outcome of waiting for a recognised response: `_read_line` returning
`None` is a timeout, otherwise the loop runs until an `ok` or an
`error`/`alarm` line arrives. -/
inductive AwaitOutcome where
  | timeout
  | ack
  | errAlarm (resp : String)
  deriving DecidableEq, Repr

/-- Drive the reader loop of `send_gcode` over the (remaining) sequence of
`_read_line` results until a recognised response or a timeout; returns the
outcome together with the unread remainder.  An exhausted list means
`_read_line` would block and time out. -/
def awaitResp : List (Option String) → AwaitOutcome × List (Option String)
  | [] => (.timeout, [])
  | none :: rest => (.timeout, rest)
  | some r :: rest =>
    match classifyResp r with
    | .skip => awaitResp rest
    | .ack => (.ack, rest)
    | .errAlarm => (.errAlarm r, rest)

/-- Observable result of `send_gcode`: the returned `(success, message)` pair,
the commands written to the transport, and the `(current, total)` arguments of
every progress-callback invocation, in order.  (The source also appends to a
stream log file; that side effect is not modelled.) -/
structure StreamResult where
  success : Bool
  message : String
  sent : List String
  progress : List (Nat × Nat)
  deriving DecidableEq, Repr

/-- The failure message of `send_gcode` when no recognised response arrives in
time: `f"Timeout waiting for response at line {i + 1} ({cmd})"`. -/
def timeoutMsg (n : Nat) (cmd : String) : String :=
  "Timeout waiting for response at line " ++ toString n ++ " (" ++ cmd ++ ")"

/-- The success message of `send_gcode`: `f"Completed {total} commands"`. -/
def completedMsg (total : Nat) : String :=
  "Completed " ++ toString total ++ " commands"

/-- The `for i, cmd in enumerate(commands)` loop of `send_gcode`: each command
is written, then the reader loop waits for a response; a timeout aborts with
a failure message, while `ok` and `error`/`alarm` both proceed to the
progress callback and the next command. -/
def sendLoop (total : Nat) : List String → List (Option String) → Nat → StreamResult
  | [], _, _ => ⟨true, completedMsg total, [], []⟩
  | cmd :: rest, reads, i =>
    match awaitResp reads with
    | (.timeout, _) => ⟨false, timeoutMsg (i + 1) cmd, [cmd], []⟩
    | (.ack, reads') =>
      let r := sendLoop total rest reads' (i + 1)
      ⟨r.success, r.message, cmd :: r.sent, (i + 1, total) :: r.progress⟩
    | (.errAlarm _, reads') =>
      let r := sendLoop total rest reads' (i + 1)
      ⟨r.success, r.message, cmd :: r.sent, (i + 1, total) :: r.progress⟩

/-- `LaserController.send_gcode`: comment-strip and filter the input lines,
return `(True, "No commands")` for an empty command list, and otherwise
stream command by command under acknowledgement back-pressure.  `reads` is
the sequence of results that successive `_read_line` calls yield. -/
def sendGcode (gcodeLines : List String) (reads : List (Option String)) : StreamResult :=
  let commands := gcodeCommands gcodeLines
  if commands.length = 0 then ⟨true, "No commands", [], []⟩
  else sendLoop commands.length commands reads 0

/-- The read stream left over after one full wait of the reader loop. -/
def afterAwait (reads : List (Option String)) : List (Option String) :=
  (awaitResp reads).2

/-- The read stream left over after `n` full waits of the reader loop. -/
def consumeAwaits : Nat → List (Option String) → List (Option String)
  | 0, reads => reads
  | n + 1, reads => consumeAwaits n (afterAwait reads)

/-- The controller acknowledges each of the next `n` commands with an eventual
`ok` (possibly after skipped status/echo lines, never a timeout and never an
`error`/`alarm`). -/
def awaitsOk : Nat → List (Option String) → Prop
  | 0, _ => True
  | n + 1, reads => (awaitResp reads).1 = .ack ∧ awaitsOk n (afterAwait reads)

/-- The controller answers each of the next `n` commands with some recognised
response — `ok` or `error`/`alarm` — before the read timeout. -/
def awaitsAnswered : Nat → List (Option String) → Prop
  | 0, _ => True
  | n + 1, reads => (awaitResp reads).1 ≠ .timeout ∧ awaitsAnswered n (afterAwait reads)

instance instDecAwaitsOk :
    (n : Nat) → (reads : List (Option String)) → Decidable (awaitsOk n reads)
  | 0, _ => .isTrue trivial
  | n + 1, reads =>
    have : Decidable (awaitsOk n (afterAwait reads)) := instDecAwaitsOk n (afterAwait reads)
    inferInstanceAs (Decidable ((awaitResp reads).1 = .ack ∧ awaitsOk n (afterAwait reads)))

instance instDecAwaitsAnswered :
    (n : Nat) → (reads : List (Option String)) → Decidable (awaitsAnswered n reads)
  | 0, _ => .isTrue trivial
  | n + 1, reads =>
    have : Decidable (awaitsAnswered n (afterAwait reads)) :=
      instDecAwaitsAnswered n (afterAwait reads)
    inferInstanceAs
      (Decidable ((awaitResp reads).1 ≠ .timeout ∧ awaitsAnswered n (afterAwait reads)))

/-! ## Geometry and arc fitting (`src/gcode_generator.py`) -/

/-- A point of the plane, in exact rational coordinates (the source uses
Python floats). -/
structure Pt where
  x : ℚ
  y : ℚ
  deriving DecidableEq, Repr

/-- Squared euclidean distance.  The source compares `math.hypot` results
against nonnegative tolerances; every such comparison is carried out here on
the squares, which is exactly equivalent. -/
def distSq (a b : Pt) : ℚ :=
  (b.x - a.x) ^ 2 + (b.y - a.y) ^ 2

/-- The determinant `d` computed by `_circumcenter`. -/
def ccDet (p0 p1 p2 : Pt) : ℚ :=
  2 * (p0.x * (p1.y - p2.y) + p1.x * (p2.y - p0.y) + p2.x * (p0.y - p1.y))

/-- `_circumcenter`: the circumcenter of a triangle, or `none` when the three
points are collinear (`abs(d) < 1e-10`). -/
def circumcenter (p0 p1 p2 : Pt) : Option Pt :=
  let d := ccDet p0 p1 p2
  if |d| < 1 / 10000000000 then none
  else
    some ⟨((p0.x ^ 2 + p0.y ^ 2) * (p1.y - p2.y) +
           (p1.x ^ 2 + p1.y ^ 2) * (p2.y - p0.y) +
           (p2.x ^ 2 + p2.y ^ 2) * (p0.y - p1.y)) / d,
          ((p0.x ^ 2 + p0.y ^ 2) * (p2.x - p1.x) +
           (p1.x ^ 2 + p1.y ^ 2) * (p0.x - p2.x) +
           (p2.x ^ 2 + p2.y ^ 2) * (p1.x - p0.x)) / d⟩

/-- `_cross2d`: 2-D cross product of the vectors `o→a` and `o→b`. -/
def cross2d (o a b : Pt) : ℚ :=
  (a.x - o.x) * (b.y - o.y) - (a.y - o.y) * (b.x - o.x)

/-- `_bezier_midpoint`: the point of a cubic Bezier at `t = 0.5`. -/
def cubicMid (p0 p1 p2 p3 : Pt) : Pt :=
  let t : ℚ := 1 / 2
  let mt : ℚ := 1 - t
  ⟨mt ^ 3 * p0.x + 3 * mt ^ 2 * t * p1.x + 3 * mt * t ^ 2 * p2.x + t ^ 3 * p3.x,
   mt ^ 3 * p0.y + 3 * mt ^ 2 * t * p1.y + 3 * mt * t ^ 2 * p2.y + t ^ 3 * p3.y⟩

/-- `_quad_midpoint`: the point of a quadratic Bezier at `t = 0.5`. -/
def quadMid (p0 cp p3 : Pt) : Pt :=
  let t : ℚ := 1 / 2
  let mt : ℚ := 1 - t
  ⟨mt ^ 2 * p0.x + 2 * mt * t * cp.x + t ^ 2 * p3.x,
   mt ^ 2 * p0.y + 2 * mt * t * cp.y + t ^ 2 * p3.y⟩

/-- Midpoint of two points (the `(a+b)*0.5` steps of the De Casteljau
subdivisions). -/
def midPt (a b : Pt) : Pt :=
  ⟨(a.x + b.x) * (1 / 2), (a.y + b.y) * (1 / 2)⟩

/-- The source's test `abs(arc_mid_r - radius) > MAX_ARC_ERR` where
`arc_mid_r = √a` and `radius = √b` (`a`, `b` the squared distances and
`MAX_ARC_ERR = 0.08`).  For `a, b ≥ 0` one has
`|√a − √b| > e  ↔  a + b − e² > 2·√(a·b)  ↔  (0 < a + b − e² ∧ 4·a·b < (a + b − e²)²)`,
which is the exact rational test used here. -/
def arcErrExceeded (a b : ℚ) : Bool :=
  decide (0 < a + b - (2 / 25) ^ 2 ∧ 4 * a * b < (a + b - (2 / 25) ^ 2) ^ 2)

/-- One emitted G-code line of `GCodeGenerator.generate`, structurally.  The
text of `;` comment lines (and of inline comments after a code word) is
abstracted away; numeric fields are exact rationals where the source formats
floats.  `m2` never occurs in the generator's output but belongs to the line
language (the specification's postamble mentions it). -/
inductive GLine where
  | comment
  | g21
  | g90
  | m5
  | m2
  | m4s (s : ℤ)
  | g0z (z : ℚ)
  | g0 (x y : ℚ)
  | g1 (x y f : ℚ)
  | garc (ccw : Bool) (x y i j f : ℚ)
  | home
  | md
  deriving DecidableEq, Repr

/-- The branch sequence shared by `_quad_to_arc_or_lines_machine` and
`_cubic_to_arc_or_lines_machine` once the midpoint `mid` has been evaluated:
emit nothing for a degenerate segment, a straight `G1` for a collinear triple
or a tiny radius, `onSplit` when the arc error exceeds `MAX_ARC_ERR = 0.08`
(the callers put the recursive subdivision there), and otherwise one `G2`/`G3`
arc carrying the centre as a signed `(I, J)` offset from `p₀`. -/
def arcFitCore (p0 mid p3 : Pt) (feed : ℚ) (onSplit : List GLine) : List GLine :=
  if distSq p0 p3 < 1 / 1000000000000 then []
  else
    match circumcenter p0 mid p3 with
    | none => [.g1 p3.x p3.y feed]
    | some c =>
      if distSq p0 c < 1 / 400 then [.g1 p3.x p3.y feed]
      else if arcErrExceeded (distSq mid c) (distSq p0 c) then onSplit
      else
        [.garc (decide (0 < cross2d p0 mid p3)) p3.x p3.y (c.x - p0.x) (c.y - p0.y) feed]

/-- `_quad_to_arc_or_lines_machine`: fit one `G2`/`G3` arc to a quadratic
Bezier in machine coordinates, or fall back to a straight line for collinear
or tiny-radius cases, or split at `t = 0.5` and recurse when the midpoint
error exceeds `MAX_ARC_ERR`.  The source recursion is unbounded; `fuel`
bounds the subdivision depth: each split consumes one unit, and with the fuel
exhausted a would-be split yields `[]`. -/
def quadFit : ℕ → Pt → Pt → Pt → ℚ → List GLine
  | 0, p0, cp, p3, feed => arcFitCore p0 (quadMid p0 cp p3) p3 feed []
  | fuel + 1, p0, cp, p3, feed =>
    let cp1 := midPt p0 cp
    let cp2 := midPt cp p3
    let mid2 := midPt cp1 cp2
    arcFitCore p0 (quadMid p0 cp p3) p3 feed
      (quadFit fuel p0 cp1 mid2 feed ++ quadFit fuel mid2 cp2 p3 feed)

/-- `_cubic_to_arc_or_lines_machine`: the cubic analogue of `quadFit`, with a
De Casteljau split at `t = 0.5`. -/
def cubicFit : ℕ → Pt → Pt → Pt → Pt → ℚ → List GLine
  | 0, p0, p1, p2, p3, feed => arcFitCore p0 (cubicMid p0 p1 p2 p3) p3 feed []
  | fuel + 1, p0, p1, p2, p3, feed =>
    let q1 := midPt p0 p1
    let r1 := midPt p1 p2
    let r2 := midPt p2 p3
    let q2 := midPt q1 r1
    let r0 := midPt r1 r2
    let mid2 := midPt q2 r0
    arcFitCore p0 (cubicMid p0 p1 p2 p3) p3 feed
      (cubicFit fuel p0 q1 q2 mid2 feed ++ cubicFit fuel mid2 r0 r2 p3 feed)

/-! ## `GCodeGenerator.generate` (`src/gcode_generator.py`)

`generate` is embedded as a function of the data it actually consumes:

* the glyph geometry `(raw_commands, scale, min_y_raw, raw_w_scaled)` that
  `_get_ttf_commands(text, box_h)` produces.  That extraction walks TrueType
  outlines through the external freetype library, so it is taken as an input
  here; it depends only on the text and `box_h`, never on the box origin.
* the per-repeat translation offsets (`_get_bold_offsets`) and concentric
  amounts (`_get_concentric_offsets`), and the vertex normals
  (`_compute_normals`).  The `circle` branch of `_get_bold_offsets` uses
  `math.cos`/`math.sin` and `_compute_normals` normalises by `math.hypot`, so
  their values are irrational; they are taken as inputs, again independent of
  the box origin.  The rational `cross` branch and `_get_concentric_offsets`
  are embedded below so that concrete instances can be evaluated.  In the
  non-`concentric` branch of the source, the amounts are all `0`, which makes
  the normal contribution of `_tx` vanish; hence a single code path covers
  both branches.
-/

/-- Python `int(q)`: truncation toward zero. -/
def pyInt (q : ℚ) : ℤ :=
  if 0 ≤ q then ⌊q⌋ else ⌈q⌉

/-- The configuration fields of the generator that `generate` reads (from
`_load_settings` and the `laser_settings`/`text_settings` config sections). -/
structure GenCfg where
  laserPower : ℚ
  spindleMax : ℚ
  speed : ℚ
  focalHeight : ℚ
  passes : ℕ
  boldRepeats : ℕ
  mirrorY : Bool
  genOffsetX : ℚ
  genOffsetY : ℚ
  deriving DecidableEq, Repr

/-- `s_val = int((self.laser_power / 100.0) * self.spindle_max)`. -/
def sVal (cfg : GenCfg) : ℤ :=
  pyInt (cfg.laserPower / 100 * cfg.spindleMax)

/-- `_get_concentric_offsets`: `0, +δ, −δ, +2δ, −2δ, …`. -/
def getConcentricOffsets (repeats : ℕ) (offsetMm : ℚ) : List ℚ :=
  if repeats ≤ 1 then [0]
  else 0 :: (List.range (repeats - 1)).map (fun i0 =>
    let i := i0 + 1
    (if i % 2 = 1 then (1 : ℚ) else -1) * (((i + 1) / 2 : ℕ) : ℚ) * offsetMm)

/-- The non-`circle` branch of `_get_bold_offsets`: the cross/diagonal
sequence, scaled up one step every eight repeats. -/
def getBoldOffsetsCross (repeats : ℕ) (offsetMm : ℚ) : List (ℚ × ℚ) :=
  if repeats ≤ 1 then [(0, 0)]
  else
    let crossSeq : List (ℚ × ℚ) :=
      [(1, 0), (0, 1), (-1, 0), (0, -1), (1, 1), (-1, 1), (-1, -1), (1, -1)]
    (0, 0) :: (List.range (repeats - 1)).map (fun i0 =>
      let d := crossSeq.getD (i0 % 8) (0, 0)
      let mult : ℚ := 1 + ((i0 / 8 : ℕ) : ℚ)
      (d.1 * offsetMm * mult, d.2 * offsetMm * mult))

/-- The quantities fixed before the emission loops of `generate` that the
inner `_tx` closure reads. -/
structure TxCtx where
  activeScale : ℚ
  minYRaw : ℚ
  boxH : ℚ
  finalScale : ℚ
  offsetX : ℚ
  offsetY : ℚ
  mirrorY : Bool
  deriving DecidableEq, Repr

/-- The `_tx` closure of `generate`: scale a font-unit point to millimetres,
optionally mirror the Y axis, add the concentric normal offset `amt · n`
(Y-negated under mirroring) and the bold translation `(obx, oby)`, and anchor
at the box offset. -/
def txPt (ctx : TxCtx) (amt : ℚ) (nv : Pt) (obx oby : ℚ) (p : Pt) : Pt :=
  let mx := p.x * ctx.activeScale
  let my :=
    if ctx.mirrorY then (ctx.boxH / ctx.finalScale - (p.y - ctx.minYRaw)) * ctx.activeScale
    else (p.y - ctx.minYRaw) * ctx.activeScale
  let nx := nv.x * amt
  let ny0 := nv.y * amt
  let ny := if ctx.mirrorY then -ny0 else ny0
  ⟨mx + ctx.offsetX + obx + nx, my + ctx.offsetY + oby + ny⟩

/-- One drawing command of the glyph extraction (`moveTo` / `lineTo` /
`qCurveTo` / `curveTo`), in font units. -/
inductive RawCmd where
  | move (p : Pt)
  | line (p : Pt)
  | quad (c p : Pt)
  | cubic (c1 c2 p : Pt)
  deriving DecidableEq, Repr

/-- One iteration of the command loop of `generate`: emit the lines for one
drawing command and update `current_pos`.  `nOf k` is the vertex normal for
the command's `k`-th point (`_get_n`; the all-zero function when the source
would have `normal_cmds = None`). -/
def emitCmd (cfg : GenCfg) (ctx : TxCtx) (fuel : ℕ) (amt obx oby : ℚ)
    (nOf : ℕ → Pt) (cur : Option Pt) (cmd : RawCmd) : List GLine × Option Pt :=
  match cmd with
  | .move p =>
    let mpt := txPt ctx amt (nOf 1) obx oby p
    ([.g0 mpt.x mpt.y, .m4s (sVal cfg)], some mpt)
  | .line p =>
    let mpt := txPt ctx amt (nOf 1) obx oby p
    ([.g1 mpt.x mpt.y cfg.speed], some mpt)
  | .quad c p =>
    let mcp := txPt ctx amt (nOf 1) obx oby c
    let mep := txPt ctx amt (nOf 2) obx oby p
    (match cur with
     | some cp0 => quadFit fuel cp0 mcp mep cfg.speed
     | none => [],
     some mep)
  | .cubic c1 c2 p =>
    let mcp1 := txPt ctx amt (nOf 1) obx oby c1
    let mcp2 := txPt ctx amt (nOf 2) obx oby c2
    let mep := txPt ctx amt (nOf 3) obx oby p
    (match cur with
     | some cp0 => cubicFit fuel cp0 mcp1 mcp2 mep cfg.speed
     | none => [],
     some mep)

/-- The `for c_idx, cmd in enumerate(raw_commands)` loop of `generate`,
threading `current_pos`; `normals idx` selects the normal vector record of
command number `idx`. -/
def emitCmds (cfg : GenCfg) (ctx : TxCtx) (fuel : ℕ) (amt obx oby : ℚ)
    (normals : ℕ → ℕ → Pt) : List RawCmd → ℕ → Option Pt → List GLine
  | [], _, _ => []
  | cmd :: rest, idx, cur =>
    let step := emitCmd cfg ctx fuel amt obx oby (normals idx) cur cmd
    step.1 ++ emitCmds cfg ctx fuel amt obx oby normals rest (idx + 1) step.2

/-- One iteration of the `for b_idx in range(bold_repeats)` loop: the optional
banner comment, the emitted commands at the repeat's offset and amount, and
the closing `M5`. -/
def boldBlock (cfg : GenCfg) (ctx : TxCtx) (fuel : ℕ) (offsets : List (ℚ × ℚ))
    (amounts : List ℚ) (normals : ℕ → ℕ → Pt) (raw : List RawCmd) (b : ℕ) : List GLine :=
  let ob := offsets.getD b (0, 0)
  let amt := amounts.getD b 0
  (if 1 < cfg.passes ∨ 1 < cfg.boldRepeats then [GLine.comment] else [])
    ++ emitCmds cfg ctx fuel amt ob.1 ob.2 normals raw 0 none
    ++ [GLine.m5]

/-- The nested `for p in range(passes): for b_idx in range(bold_repeats):`
loops of `generate`. -/
def genBody (cfg : GenCfg) (ctx : TxCtx) (fuel : ℕ) (offsets : List (ℚ × ℚ))
    (amounts : List ℚ) (normals : ℕ → ℕ → Pt) (raw : List RawCmd) : List GLine :=
  (List.range cfg.passes).flatMap (fun _ =>
    (List.range cfg.boldRepeats).flatMap (fun b =>
      boldBlock cfg ctx fuel offsets amounts normals raw b))

/-- The fixed preamble of `generate`: four comment lines, `G21`, `G90`, `M5`,
and the move to the focus height `G0 Z{focal_height}`. -/
def genPreamble (cfg : GenCfg) : List GLine :=
  [.comment, .comment, .comment, .comment, .g21, .g90, .m5, .g0z cfg.focalHeight]

/-- The fixed trailer of `generate`: `; Job Complete`, `G90`, `G0 Z0`, `$H`,
`$MD`. -/
def genPostamble : List GLine :=
  [.comment, .g90, .g0z 0, .home, .md]

/-- `GCodeGenerator.generate`: returns the single error comment
`"; Error: No paths generated"` when the glyph extraction yielded no
commands, and otherwise the preamble, the pass/bold emission loops, and the
trailer, with the box-fit scaling and centring offsets computed exactly as in
the source. -/
def generate (cfg : GenCfg) (offsets : List (ℚ × ℚ)) (amounts : List ℚ)
    (normals : ℕ → ℕ → Pt) (raw : List RawCmd) (scale minYRaw rawWScaled : ℚ)
    (boxX boxY boxW boxH : ℚ) (fuel : ℕ) : List GLine :=
  if raw = [] then [.comment]
  else
    let finalScale := if boxW < rawWScaled then boxW / rawWScaled else 1
    let activeScale := scale * finalScale
    let finalW := rawWScaled * finalScale
    let finalH := boxH * finalScale
    let offX := boxX + (boxW - finalW) / 2 + cfg.genOffsetX
    let offY := boxY + (boxH - finalH) / 2 + cfg.genOffsetY
    let ctx : TxCtx := ⟨activeScale, minYRaw, boxH, finalScale, offX, offY, cfg.mirrorY⟩
    genPreamble cfg ++ genBody cfg ctx fuel offsets amounts normals raw ++ genPostamble

/-- Translate the X/Y target of a G-code line by `(dx, dy)`; arc centre
offsets `I`/`J`, Z moves, spindle words and non-motion lines are untouched. -/
def translateLine (dx dy : ℚ) : GLine → GLine
  | .g0 x y => .g0 (x + dx) (y + dy)
  | .g1 x y f => .g1 (x + dx) (y + dy) f
  | .garc ccw x y i j f => .garc ccw (x + dx) (y + dy) i j f
  | l => l

/-- Is this line the program-end word `M2`? -/
def isM2 : GLine → Bool
  | .m2 => true
  | _ => false

/-- Is this line a spindle word `M4 S…`? -/
def isM4S : GLine → Bool
  | .m4s _ => true
  | _ => false

/-! ## Layout manager (`src/layout_manager.py`) -/

/-- Python `round(q)` on an exact value: round half to even. -/
def pyRound (q : ℚ) : ℤ :=
  let f := ⌊q⌋
  let r := q - (f : ℚ)
  if r < 1 / 2 then f
  else if 1 / 2 < r then f + 1
  else if f % 2 = 0 then f else f + 1

/-- Python `round(q, n)` on an exact value: round half to even at `n` decimal
places. -/
def pyRoundTo (n : ℕ) (q : ℚ) : ℚ :=
  (pyRound (q * 10 ^ n) : ℚ) / 10 ^ n

/-- One recorded placement (`self.placements` entries).  The creation
timestamp is not modelled. -/
structure Placement where
  name : String
  x : ℚ
  y : ℚ
  width : ℚ
  height : ℚ
  textHeightMm : ℚ
  deriving DecidableEq, Repr

/-- `LayoutManager.add_placement`: the record appended for the given
arguments, every numeric field rounded to three decimals. -/
def mkPlacement (name : String) (x y width height textHeight : ℚ) : Placement :=
  ⟨name, pyRoundTo 3 x, pyRoundTo 3 y, pyRoundTo 3 width, pyRoundTo 3 height,
   pyRoundTo 3 textHeight⟩

/-- `PADDING_MM`: the minimum gap between names. -/
def paddingMm : ℚ := 3 / 2

/-- `LayoutManager._is_space_empty`: the rectangle `(x, y, width, height)`
keeps at least the padding away from every recorded placement. -/
def isSpaceEmpty (placements : List Placement) (x y width height : ℚ) : Bool :=
  placements.all (fun pl =>
    decide (x + width + paddingMm ≤ pl.x ∨
            pl.x + pl.width ≤ x - paddingMm ∨
            y + height + paddingMm ≤ pl.y ∨
            pl.y + pl.height ≤ y - paddingMm))

/-- The candidate origins of `find_empty_space`, before shuffling:
`[(x, y) for x in range(0, int(max_x)+1, 2) for y in range(0, int(max_y)+1, 2)]`
(the step is `max(1, int(grid_size)) = 2`); only evaluated when
`max_x ≥ 0 ∧ max_y ≥ 0`. -/
def gridPositions (maxX maxY : ℚ) : List (ℕ × ℕ) :=
  let xs := List.range' 0 (⌊maxX⌋.toNat / 2 + 1) 2
  let ys := List.range' 0 (⌊maxY⌋.toNat / 2 + 1) 2
  xs.flatMap (fun x => ys.map (fun y => (x, y)))

/-- The `min_height` floor of `find_empty_space`, in millimetres. -/
def minHeight : ℚ := 2

/-- The step-1 `while` loop of `find_empty_space`: as long as the name is
wider than the active area and the text height is above the floor, shrink all
three quantities by the factor `max(0.8·t, 2)/t`.  The source loop is
unbounded; `fuel` bounds the iterations, and `none` means the loop would
still be running. -/
def forceFitWidth (activeW : ℚ) : ℕ → ℚ → ℚ → ℚ → Option (ℚ × ℚ × ℚ)
  | 0, w, h, t => if activeW < w ∧ minHeight < t then none else some (w, h, t)
  | fuel + 1, w, h, t =>
    if activeW < w ∧ minHeight < t then
      let newH := max (t * (4 / 5)) minHeight
      let scale := newH / t
      forceFitWidth activeW fuel (w * scale) (h * scale) newH
    else some (w, h, t)

/-- Step 2 of `find_empty_space`: compute `max_x`/`max_y`, fall through when
either is negative, and otherwise scan the shuffled grid candidates for the
first empty spot. -/
def scanCandidates (activeW activeH : ℚ) (placements : List Placement)
    (shuffle : List (ℕ × ℕ) → List (ℕ × ℕ)) (w h : ℚ) : Option (ℕ × ℕ) :=
  let maxX := activeW - w
  let maxY := activeH - h
  if maxX < 0 ∨ maxY < 0 then none
  else (shuffle (gridPositions maxX maxY)).find?
    (fun p => isSpaceEmpty placements (p.1 : ℚ) (p.2 : ℚ) w h)

/-- `LayoutManager.find_empty_space` for a board of active size
`activeW × activeH` with recorded `placements`.  `shuffle` stands for the
`random.shuffle` call: an arbitrary reordering applied to the candidate list.
The unbounded shrink recursion of the source is driven by `fuel`: the outer
`none` means the recursion has not finished within `fuel` shrink rounds,
`some none` is the source's refusal (`return None`), and `some (some r)` is a
found origin with its final text height. -/
def findEmptySpace (activeW activeH : ℚ) (placements : List Placement)
    (shuffle : List (ℕ × ℕ) → List (ℕ × ℕ)) :
    ℕ → ℚ → ℚ → ℚ → Option (Option (ℚ × ℚ × ℚ))
  | 0, _, _, _ => none
  | fuel + 1, w, h, t =>
    match forceFitWidth activeW (fuel + 1) w h t with
    | none => none
    | some (w, h, t) =>
      if activeW < w then some none
      else
        match scanCandidates activeW activeH placements shuffle w h with
        | some p => some (some ((p.1 : ℚ), (p.2 : ℚ), t))
        | none =>
          if minHeight < t then
            let newH := max (t * (4 / 5)) minHeight
            let scale := newH / t
            findEmptySpace activeW activeH placements shuffle fuel (w * scale) (h * scale) newH
          else some none

/-- `LayoutManager.get_statistics` result record. -/
structure Statistics where
  total : ℕ
  coveragePercent : ℚ
  avgTextHeight : ℚ
  deriving DecidableEq, Repr

/-- `LayoutManager.get_statistics`: all-zero for an empty placement list;
otherwise the count, the covered-area percentage rounded to one decimal, and
the mean text height rounded to two decimals. -/
def getStatistics (widthMm heightMm : ℚ) (placements : List Placement) : Statistics :=
  if placements = [] then ⟨0, 0, 0⟩
  else
    let totalArea := (placements.map (fun p => p.width * p.height)).sum
    let availableArea := widthMm * heightMm
    let avgHeight := (placements.map (fun p => p.textHeightMm)).sum / placements.length
    ⟨placements.length, pyRoundTo 1 (totalArea / availableArea * 100), pyRoundTo 2 avgHeight⟩

/-- The padded-separation predicate of the specification: two placements are
at least `PADDING_MM = 1.5` apart along some axis. -/
def pairSeparated (a b : Placement) : Prop :=
  a.x + a.width + paddingMm ≤ b.x ∨ b.x + b.width + paddingMm ≤ a.x ∨
  a.y + a.height + paddingMm ≤ b.y ∨ b.y + b.height + paddingMm ≤ a.y

instance (a b : Placement) : Decidable (pairSeparated a b) := by
  unfold pairSeparated; infer_instance

/-- The recording step of `main.process_queue` after a successful engrave:
`layout.add_placement(name, x_local, y_local, actual_w, actual_h, final_height)`
with `actual_w = width` — the width estimated at the *initial* text height,
not rescaled after `find_empty_space` may have shrunk the text — and
`actual_h = final_height`. -/
def recordedFromFind (name : String) (origWidth xLocal yLocal finalHeight : ℚ) : Placement :=
  mkPlacement name xLocal yLocal origWidth finalHeight finalHeight

/-! ## Helper definitions for the statements and concrete instances -/

/-- Translation of a point by `(dx, dy)`. -/
def trPt (dx dy : ℚ) (p : Pt) : Pt :=
  ⟨p.x + dx, p.y + dy⟩

/-- The progress-callback invocations issued while streaming `n` commands
that start at 0-based index `i`: `(i+1, total), (i+2, total), …`. -/
def progressFrom (total : ℕ) : ℕ → ℕ → List (ℕ × ℕ)
  | _, 0 => []
  | i, n + 1 => (i + 1, total) :: progressFrom total (i + 1) n

/-- A program with one comment-only line, for exercising the comment
filtering of `send_gcode`. -/
def progC1 : List String := ["; border", "G1 X1"]

/-- A small generator configuration: power 40 %, spindle max 1000, feed 800,
one pass, no bold repeat. -/
def cfgC2 : GenCfg := ⟨40, 1000, 800, 0, 1, 1, false, 0, 0⟩

/-- A two-command glyph: one pen-up move and one straight stroke. -/
def rawC2 : List RawCmd := [.move ⟨0, 0⟩, .line ⟨10, 0⟩]

/-- A concrete generated program (box `10 × 10` at the origin). -/
def progC2 : List GLine :=
  generate cfgC2 [(0, 0)] [0] (fun _ _ => ⟨0, 0⟩) rawC2 1 0 10 0 0 10 10 8

/-- A configuration whose exact spindle value `15 % · 999 = 149.85` is not an
integer, so that truncation and rounding differ. -/
def cfgC6 : GenCfg := ⟨15, 999, 1000, 0, 1, 1, false, 0, 0⟩

/-- A two-command glyph for the spindle-value instance. -/
def rawC6 : List RawCmd := [.move ⟨0, 0⟩, .line ⟨8, 0⟩]

/-- The generated program for `cfgC6`. -/
def progC6 : List GLine :=
  generate cfgC6 [(0, 0)] [0] (fun _ _ => ⟨0, 0⟩) rawC6 1 0 8 0 0 8 10 8

/-- A pre-existing placement on a `60 × 20` board, occupying `x ∈ [50, 90]`,
`y ∈ [0, 10]`. -/
def plOld : Placement := ⟨"old", 50, 0, 40, 10, 10⟩

/-- A board placement occupying `x ∈ [16, 19]`, `y ∈ [0, 8]` of a `20 × 8 mm`
active area. -/
def plC3 : Placement := ⟨"old", 16, 0, 3, 8, 8⟩

/-- A board placement occupying `x ∈ [0, 3]`, `y ∈ [0, 8]` of a `20 × 8 mm`
active area. -/
def plC4 : Placement := ⟨"old", 0, 0, 3, 8, 8⟩

/-- A one-element placement list for the statistics instance. -/
def psC10 : List Placement := [⟨"a", 0, 0, 10, 5, 5⟩]

/-- The number of `t ↦ max(0.8·t, 2)` shrink steps needed to bring the text
height `t` to (at most) the 2 mm floor: the least `n` with
`t ≤ 2 · (5/4)ⁿ`.  This is the termination measure for the shrink loop and
the shrink recursion of `find_empty_space`. -/
def shrinkSteps (t : ℚ) : ℕ :=
  Nat.find (show ∃ n, t ≤ 2 * (5 / 4) ^ n from by
    rcases le_or_lt t 2 with h | h
    · exact ⟨0, by simpa using h⟩
    · obtain ⟨n, hn⟩ := pow_unbounded_of_one_lt (t / 2) (by norm_num : (1 : ℚ) < 5 / 4)
      exact ⟨n, by linarith⟩)

/-! ## Streaming lemmas -/

theorem awaitsOk_answered : ∀ (n : ℕ) (reads : List (Option String)),
    awaitsOk n reads → awaitsAnswered n reads := by
  intro n
  induction n with
  | zero => intro reads _; trivial
  | succ n ih =>
    intro reads h
    obtain ⟨h1, h2⟩ := h
    refine ⟨?_, ih _ h2⟩
    rw [h1]
    intro hc
    cases hc

theorem progressFrom_eq_map (total : ℕ) : ∀ (n i : ℕ),
    progressFrom total i n = (List.range n).map (fun k => (i + k + 1, total)) := by
  intro n
  induction n with
  | zero => intro i; simp [progressFrom]
  | succ n ih =>
    intro i
    rw [List.range_succ_eq_map]
    simp only [progressFrom, List.map_cons, List.map_map]
    have hfun : ((fun k => (i + k + 1, total)) ∘ Nat.succ) = fun k => (i + 1 + k + 1, total) := by
      funext k
      simp only [Function.comp_apply, Nat.succ_eq_add_one]
      congr 1
      omega
    rw [ih (i + 1), hfun]

theorem sendLoop_answered (total : ℕ) (cmds : List String) :
    ∀ (reads : List (Option String)) (i : ℕ), awaitsAnswered cmds.length reads →
      sendLoop total cmds reads i =
        ⟨true, completedMsg total, cmds, progressFrom total i cmds.length⟩ := by
  induction cmds with
  | nil => intro reads i _; simp [sendLoop, progressFrom]
  | cons cmd rest ih =>
    intro reads i h
    simp only [List.length_cons, awaitsAnswered] at h
    obtain ⟨h1, h2⟩ := h
    rcases hr : awaitResp reads with ⟨o, rest'⟩
    have hA : afterAwait reads = rest' := by simp [afterAwait, hr]
    rw [hA] at h2
    rw [hr] at h1
    cases o with
    | timeout => exact absurd rfl h1
    | ack =>
      simp only [sendLoop, hr]
      rw [ih rest' (i + 1) h2]
      simp [progressFrom]
    | errAlarm s =>
      simp only [sendLoop, hr]
      rw [ih rest' (i + 1) h2]
      simp [progressFrom]

theorem sendLoop_timeout (total : ℕ) :
    ∀ (k : ℕ) (cmds : List String) (reads : List (Option String)) (i : ℕ)
      (hk : k < cmds.length),
      awaitsAnswered k reads → (awaitResp (consumeAwaits k reads)).1 = .timeout →
      sendLoop total cmds reads i =
        ⟨false, timeoutMsg (i + k + 1) (cmds.get ⟨k, hk⟩), cmds.take (k + 1),
         progressFrom total i k⟩ := by
  intro k
  induction k with
  | zero =>
    intro cmds reads i hk _ htimeout
    match cmds with
    | cmd :: rest =>
      rcases hr : awaitResp reads with ⟨o, rest'⟩
      have ho : o = .timeout := by
        have : consumeAwaits 0 reads = reads := rfl
        rw [this, hr] at htimeout
        exact htimeout
      subst ho
      simp [sendLoop, hr, progressFrom]
  | succ k ihk =>
    intro cmds reads i hk hans htimeout
    match cmds with
    | cmd :: rest =>
      simp only [awaitsAnswered] at hans
      obtain ⟨h1, h2⟩ := hans
      rcases hr : awaitResp reads with ⟨o, rest'⟩
      have hA : afterAwait reads = rest' := by simp [afterAwait, hr]
      rw [hA] at h2
      have hco : consumeAwaits (k + 1) reads = consumeAwaits k rest' := by
        show consumeAwaits k (afterAwait reads) = consumeAwaits k rest'
        rw [hA]
      rw [hco] at htimeout
      rw [hr] at h1
      have hk' : k < rest.length := by
        simpa using Nat.lt_of_succ_lt_succ (by simpa using hk)
      cases o with
      | timeout => exact absurd rfl h1
      | ack =>
        simp only [sendLoop, hr]
        rw [ihk rest rest' (i + 1) hk' h2 htimeout]
        simp only [progressFrom, List.take, List.get]
        congr 2
        omega
      | errAlarm s =>
        simp only [sendLoop, hr]
        rw [ihk rest rest' (i + 1) hk' h2 htimeout]
        simp only [progressFrom, List.take, List.get]
        congr 2
        omega

/-- C1 (amended): while the controller eventually acknowledges every command
with `ok`, `send_gcode` succeeds, writes exactly the comment-stripped
non-empty lines of the program to the transport — `C = len(commands)` lines,
not `len(program)` lines, since comment-only and blank lines are dropped —
and invokes the progress callback exactly `C` times with arguments
`(current, total) = (k, C)` for `k` increasing strictly from `1` to `C`. -/
theorem C1_stream_counts (g : List String) (reads : List (Option String))
    (h : awaitsOk (gcodeCommands g).length reads) :
    (sendGcode g reads).success = true ∧
    (sendGcode g reads).sent = gcodeCommands g ∧
    (sendGcode g reads).progress =
      (List.range (gcodeCommands g).length).map
        (fun k => (k + 1, (gcodeCommands g).length)) := by
  have hans := awaitsOk_answered _ _ h
  unfold sendGcode
  by_cases h0 : (gcodeCommands g).length = 0
  · have hnil : gcodeCommands g = [] := List.length_eq_zero.mp h0
    rw [if_pos h0]
    simp [hnil]
  · rw [if_neg h0]
    rw [sendLoop_answered _ _ _ 0 hans]
    refine ⟨rfl, rfl, ?_⟩
    rw [progressFrom_eq_map]
    simp

/-- Witness for C1: a two-command program acknowledged with `ok` twice (one
`ok` preceded by a skipped status report). -/
theorem C1_witness :
    (sendGcode ["G21", "G1 X5 ; move"] [some "ok", some "<Idle>", some "ok"]).success = true ∧
    (sendGcode ["G21", "G1 X5 ; move"] [some "ok", some "<Idle>", some "ok"]).sent =
      gcodeCommands ["G21", "G1 X5 ; move"] ∧
    (sendGcode ["G21", "G1 X5 ; move"] [some "ok", some "<Idle>", some "ok"]).progress =
      (List.range (gcodeCommands ["G21", "G1 X5 ; move"]).length).map
        (fun k => (k + 1, (gcodeCommands ["G21", "G1 X5 ; move"]).length)) :=
  C1_stream_counts ["G21", "G1 X5 ; move"] [some "ok", some "<Idle>", some "ok"] (by decide)

/-- Counterexample for C1 as stated: a program with a comment-only line is
streamed with every actual command acknowledged by `ok`, yet only 1 line is
written and the progress callback runs only once, while `len(program) = 2`. -/
theorem C1_counterexample :
    awaitsOk (gcodeCommands progC1).length [some "ok"] ∧
    (sendGcode progC1 [some "ok"]).success = true ∧
    (sendGcode progC1 [some "ok"]).sent.length ≠ progC1.length ∧
    (sendGcode progC1 [some "ok"]).progress.length ≠ progC1.length := by
  decide

/-- C5 (amended): a response line beginning with `error` or `alarm` does not
abort the stream — with every command answered (by `ok` or `error`/`alarm`)
the stream sends everything and returns success — whereas a timeout awaiting
a recognised response is fatal: `send_gcode` returns failure with the message
`"Timeout waiting for response at line N (C)"`, where `N` is the 1-based
index of the pending command and `C` its text (the claim's message template
lacks the trailing ` (C)` part). -/
theorem C5_error_nonfatal_timeout_fatal (g : List String) (reads : List (Option String)) :
    (awaitsAnswered (gcodeCommands g).length reads →
      (sendGcode g reads).success = true ∧ (sendGcode g reads).sent = gcodeCommands g) ∧
    (∀ (k : ℕ) (hk : k < (gcodeCommands g).length),
      awaitsAnswered k reads → (awaitResp (consumeAwaits k reads)).1 = .timeout →
      (sendGcode g reads).success = false ∧
      (sendGcode g reads).message = timeoutMsg (k + 1) ((gcodeCommands g).get ⟨k, hk⟩)) := by
  constructor
  · intro hans
    unfold sendGcode
    by_cases h0 : (gcodeCommands g).length = 0
    · rw [if_pos h0]
      exact ⟨rfl, (List.length_eq_zero.mp h0).symm⟩
    · rw [if_neg h0]
      rw [sendLoop_answered _ _ _ 0 hans]
      exact ⟨rfl, rfl⟩
  · intro k hk hans ht
    unfold sendGcode
    have h0 : ¬ (gcodeCommands g).length = 0 := by omega
    rw [if_neg h0]
    rw [sendLoop_timeout _ k _ _ 0 hk hans ht]
    refine ⟨rfl, ?_⟩
    simp

/-- Witness for C5: an `error:9` response does not stop a two-command stream,
and a stream whose only response lines are a status report and then silence
fails with the full timeout message. -/
theorem C5_witness :
    ((sendGcode ["G1 X0", "G1 X1"] [some "error:9", some "ok"]).success = true ∧
     (sendGcode ["G1 X0", "G1 X1"] [some "error:9", some "ok"]).sent =
       gcodeCommands ["G1 X0", "G1 X1"]) ∧
    ((sendGcode ["G1 X0"] [some "<Idle>", none]).success = false ∧
     (sendGcode ["G1 X0"] [some "<Idle>", none]).message =
       "Timeout waiting for response at line 1 (G1 X0)") := by
  refine ⟨(C5_error_nonfatal_timeout_fatal ["G1 X0", "G1 X1"] [some "error:9", some "ok"]).1
      (by decide), ?_⟩
  obtain ⟨hs, hm⟩ :=
    (C5_error_nonfatal_timeout_fatal ["G1 X0"] [some "<Idle>", none]).2 0 (by decide)
      (by decide) (by decide)
  refine ⟨hs, ?_⟩
  rw [hm]
  decide

/-- Counterexample for C5 as stated: on a timeout at line 1 the returned
message is not the bare `"Timeout waiting for response at line 1"` — the
source appends the pending command in parentheses. -/
theorem C5_counterexample :
    (sendGcode ["G1 X0"] [none]).success = false ∧
    (sendGcode ["G1 X0"] [none]).message ≠ "Timeout waiting for response at line 1" := by
  decide

/-- C3 (code bug): `find_empty_space` guarantees padded separation only for
the *shrunk* rectangle, but `main.process_queue` records the placement with
the width estimated at the initial text height (`actual_w = width`).  On a
`20 × 8` board holding `plC3 = (16, 0, 3, 8)`, a request of size `16 × 10` at
height 10 is shrunk to height 8 (scaled width `12.8`) and placed at `(0, 0)`;
the recorded placement `(0, 0, 16, 8)` violates the claimed pairwise
`1.5 mm` separation against `plC3` in both orders. -/
theorem C3_recorded_overlap :
    findEmptySpace 20 8 [plC3] id 3 16 10 10 = some (some (0, 0, 8)) ∧
    ¬ pairSeparated (recordedFromFind "new" 16 0 0 8) plC3 ∧
    ¬ pairSeparated plC3 (recordedFromFind "new" 16 0 0 8) := by
  refine ⟨?_, ?_, ?_⟩
  · norm_num [findEmptySpace, forceFitWidth, scanCandidates, minHeight, gridPositions, isSpaceEmpty,
      paddingMm, plC3, List.range', List.find?]
  · norm_num [pairSeparated, recordedFromFind, mkPlacement, plC3, paddingMm, pyRoundTo, pyRound]
  · norm_num [pairSeparated, recordedFromFind, mkPlacement, plC3, paddingMm, pyRoundTo, pyRound]

/-- C4 (code bug): the origin returned by `find_empty_space` does respect the
active area for the *shrunk* dimensions (`6 + 12.8 ≤ 20`, `0 + 8 ≤ 8`), but
the placement recorded by `main.process_queue` keeps the unshrunk width, and
`(6, 0, 16, 8)` sticks out of the `20 × 8` active area: `6 + 16 > 20`. -/
theorem C4_recorded_out_of_bounds :
    findEmptySpace 20 8 [plC4] List.reverse 3 16 10 10 = some (some (6, 0, 8)) ∧
    ((0 : ℚ) ≤ 6 ∧ (0 : ℚ) ≤ 0 ∧ (6 : ℚ) + 16 * (8 / 10) ≤ 20 ∧ (0 : ℚ) + 10 * (8 / 10) ≤ 8) ∧
    ¬ ((recordedFromFind "new" 16 6 0 8).x + (recordedFromFind "new" 16 6 0 8).width ≤ 20) := by
  refine ⟨?_, by norm_num, ?_⟩
  · norm_num [findEmptySpace, forceFitWidth, scanCandidates, minHeight, gridPositions, isSpaceEmpty,
      paddingMm, plC4, List.range', List.find?]
  · norm_num [recordedFromFind, mkPlacement, pyRoundTo, pyRound]

/-! ## Termination of the shrink recursion -/

theorem shrinkTarget_exists (t : ℚ) : ∃ n, t ≤ 2 * (5 / 4) ^ n := by
  rcases le_or_lt t 2 with h | h
  · exact ⟨0, by simpa using h⟩
  · obtain ⟨n, hn⟩ := pow_unbounded_of_one_lt (t / 2) (by norm_num : (1 : ℚ) < 5 / 4)
    exact ⟨n, by linarith⟩

theorem shrinkSteps_spec (t : ℚ) : t ≤ 2 * (5 / 4) ^ shrinkSteps t :=
  Nat.find_spec (shrinkTarget_exists t)

theorem shrinkSteps_min (t : ℚ) (m : ℕ) (hm : t ≤ 2 * (5 / 4) ^ m) : shrinkSteps t ≤ m :=
  Nat.find_min' (shrinkTarget_exists t) hm

theorem shrinkSteps_pos (t : ℚ) (h : 2 < t) : 0 < shrinkSteps t := by
  rcases Nat.eq_zero_or_pos (shrinkSteps t) with h0 | h0
  · have hs := shrinkSteps_spec t
    rw [h0] at hs
    norm_num at hs
    linarith
  · exact h0

theorem shrinkSteps_shrink (t : ℚ) (h : 2 < t) :
    shrinkSteps (max (t * (4 / 5)) minHeight) < shrinkSteps t := by
  have hpos := shrinkSteps_pos t h
  rcases le_or_lt (t * (4 / 5)) 2 with hc | hc
  · have hm : max (t * (4 / 5)) minHeight = 2 := by
      rw [max_eq_right]
      · rfl
      · simpa [minHeight] using hc
    rw [hm]
    have h0 : shrinkSteps 2 = 0 :=
      Nat.le_zero.mp (shrinkSteps_min 2 0 (by norm_num))
    rw [h0]
    exact hpos
  · have hm : max (t * (4 / 5)) minHeight = t * (4 / 5) := by
      rw [max_eq_left]
      simpa [minHeight] using hc.le
    rw [hm]
    have hle : shrinkSteps (t * (4 / 5)) ≤ shrinkSteps t - 1 := by
      apply shrinkSteps_min
      have hs := shrinkSteps_spec t
      have hpow : (5 / 4 : ℚ) ^ shrinkSteps t = (5 / 4) ^ (shrinkSteps t - 1) * (5 / 4) := by
        rw [← pow_succ]
        congr 1
        omega
      rw [hpow] at hs
      nlinarith [pow_pos (show (0 : ℚ) < 5 / 4 by norm_num) (shrinkSteps t - 1)]
    omega

theorem forceFitWidth_total (activeW : ℚ) :
    ∀ (fuel : ℕ) (w h t : ℚ), shrinkSteps t ≤ fuel →
      ∃ w' h' t', forceFitWidth activeW fuel w h t = some (w', h', t') ∧
        shrinkSteps t' ≤ shrinkSteps t := by
  intro fuel
  induction fuel with
  | zero =>
    intro w h t ht
    have h0 : shrinkSteps t = 0 := Nat.le_zero.mp ht
    have h2 : t ≤ 2 := by
      have hs := shrinkSteps_spec t
      rw [h0] at hs
      norm_num at hs
      exact hs
    refine ⟨w, h, t, ?_, le_refl _⟩
    simp only [forceFitWidth]
    rw [if_neg]
    intro hg
    have : (2 : ℚ) < t := by simpa [minHeight] using hg.2
    linarith
  | succ fuel ih =>
    intro w h t ht
    by_cases hg : activeW < w ∧ minHeight < t
    · have h2t : 2 < t := by simpa [minHeight] using hg.2
      have hlt := shrinkSteps_shrink t h2t
      obtain ⟨w', h', t', heq, hle⟩ :=
        ih (w * (max (t * (4 / 5)) minHeight / t)) (h * (max (t * (4 / 5)) minHeight / t))
          (max (t * (4 / 5)) minHeight) (by omega)
      refine ⟨w', h', t', ?_, le_trans hle (le_of_lt hlt)⟩
      simp only [forceFitWidth]
      rw [if_pos hg]
      exact heq
    · refine ⟨w, h, t, ?_, le_refl _⟩
      simp only [forceFitWidth]
      rw [if_neg hg]

theorem findEmptySpace_total (activeW activeH : ℚ) (ps : List Placement)
    (sh : List (ℕ × ℕ) → List (ℕ × ℕ)) :
    ∀ (fuel : ℕ) (w h t : ℚ), shrinkSteps t < fuel →
      (findEmptySpace activeW activeH ps sh fuel w h t).isSome = true := by
  intro fuel
  induction fuel with
  | zero => intro w h t ht; exact absurd ht (Nat.not_lt_zero _)
  | succ fuel ih =>
    intro w h t ht
    obtain ⟨w', h', t', heq, hle⟩ := forceFitWidth_total activeW (fuel + 1) w h t (by omega)
    simp only [findEmptySpace]
    rw [heq]
    dsimp only
    by_cases hw : activeW < w'
    · simp [hw]
    · rw [if_neg hw]
      rcases hcand : scanCandidates activeW activeH ps sh w' h' with _ | p
      · by_cases hm : minHeight < t'
        · rw [if_pos hm]
          apply ih
          have h2t : 2 < t' := by simpa [minHeight] using hm
          have := shrinkSteps_shrink t' h2t
          omega
        · rw [if_neg hm]
          rfl
      · rfl

/-- C9: `find_empty_space` terminates on every input.  The fuel-indexed
embedding returns its outer `none` exactly while the source recursion would
still be running; for every board, shuffle behaviour and request there is a
fuel bound (one more than the number of `t ↦ max(0.8·t, 2)` shrink steps that
reach the 2 mm floor) under which the function delivers an answer — an origin
or the refusal `None`. -/
theorem C9_find_empty_space_terminates (activeW activeH : ℚ) (ps : List Placement)
    (sh : List (ℕ × ℕ) → List (ℕ × ℕ)) (w h t : ℚ) :
    ∃ fuel, (findEmptySpace activeW activeH ps sh fuel w h t).isSome = true :=
  ⟨shrinkSteps t + 1,
    findEmptySpace_total activeW activeH ps sh (shrinkSteps t + 1) w h t (Nat.lt_succ_self _)⟩

/-- The two straight-line fallbacks of the arc-fit branch sequence: with the
endpoints at least `1e-6` apart and a collinear `(p₀, mid, p₃)` triple the
core emits exactly one `G1` to `p₃`. -/
theorem arcFitCore_collinear (p0 mid p3 : Pt) (feed : ℚ) (onSplit : List GLine)
    (hsep : 1 / 1000000000000 ≤ distSq p0 p3)
    (hdet : |ccDet p0 mid p3| < 1 / 10000000000) :
    arcFitCore p0 mid p3 feed onSplit = [.g1 p3.x p3.y feed] := by
  have hcc : circumcenter p0 mid p3 = none := by
    simp only [circumcenter]
    rw [if_pos hdet]
  rw [arcFitCore, if_neg (not_lt.mpr hsep), hcc]

/-- C7: for a cubic or quadratic Bezier segment whose endpoints are at least
`1e-6` apart (equivalently, squared distance at least `1e-12`) and whose
triple `(p₀, midpoint at t = 0.5, p₃)` has circumcentre determinant of
magnitude below `1e-10`, the arc fitter emits exactly the one straight-line
instruction `G1` to `p₃` — no arcs, no splits. -/
theorem C7_collinear_single_line (fuel : ℕ) (feed : ℚ) (p0 p1 p2 c p3 : Pt)
    (hsep : 1 / 1000000000000 ≤ distSq p0 p3) :
    (|ccDet p0 (cubicMid p0 p1 p2 p3) p3| < 1 / 10000000000 →
      cubicFit fuel p0 p1 p2 p3 feed = [.g1 p3.x p3.y feed]) ∧
    (|ccDet p0 (quadMid p0 c p3) p3| < 1 / 10000000000 →
      quadFit fuel p0 c p3 feed = [.g1 p3.x p3.y feed]) := by
  constructor
  · intro hdet
    cases fuel with
    | zero => exact arcFitCore_collinear _ _ _ _ _ hsep hdet
    | succ n =>
      simp only [cubicFit]
      exact arcFitCore_collinear _ _ _ _ _ hsep hdet
  · intro hdet
    cases fuel with
    | zero => exact arcFitCore_collinear _ _ _ _ _ hsep hdet
    | succ n =>
      simp only [quadFit]
      exact arcFitCore_collinear _ _ _ _ _ hsep hdet

/-- Witness for C7: the collinear cubic `(0,0), (1,0), (2,0), (3,0)` and the
collinear quadratic `(0,0), (3/2,0), (3,0)` each produce the single line
`G1 X3 Y0 F5`. -/
theorem C7_witness :
    cubicFit 0 ⟨0, 0⟩ ⟨1, 0⟩ ⟨2, 0⟩ ⟨3, 0⟩ 5 = [.g1 3 0 5] ∧
    quadFit 0 ⟨0, 0⟩ ⟨3 / 2, 0⟩ ⟨3, 0⟩ 5 = [.g1 3 0 5] := by
  have h := C7_collinear_single_line 0 5 ⟨0, 0⟩ ⟨1, 0⟩ ⟨2, 0⟩ ⟨3 / 2, 0⟩ ⟨3, 0⟩
    (by norm_num [distSq])
  exact ⟨h.1 (by norm_num [ccDet, cubicMid]), h.2 (by norm_num [ccDet, quadMid])⟩

/-! ## Line-shape lemmas for the generator -/

theorem arcFitCore_mem (p0 mid p3 : Pt) (feed : ℚ) (onSplit : List GLine) (l : GLine)
    (hl : l ∈ arcFitCore p0 mid p3 feed onSplit) :
    (isM2 l = false ∧ isM4S l = false) ∨ l ∈ onSplit := by
  simp only [arcFitCore] at hl
  split at hl
  · simp at hl
  · split at hl
    · simp only [List.mem_singleton] at hl
      subst hl
      exact Or.inl ⟨rfl, rfl⟩
    · split at hl
      · simp only [List.mem_singleton] at hl
        subst hl
        exact Or.inl ⟨rfl, rfl⟩
      · split at hl
        · exact Or.inr hl
        · simp only [List.mem_singleton] at hl
          subst hl
          exact Or.inl ⟨rfl, rfl⟩

theorem cubicFit_mem : ∀ (fuel : ℕ) (p0 p1 p2 p3 : Pt) (feed : ℚ) (l : GLine),
    l ∈ cubicFit fuel p0 p1 p2 p3 feed → isM2 l = false ∧ isM4S l = false := by
  intro fuel
  induction fuel with
  | zero =>
    intro p0 p1 p2 p3 feed l hl
    rcases arcFitCore_mem _ _ _ _ _ _ hl with h | h
    · exact h
    · simp at h
  | succ fuel ih =>
    intro p0 p1 p2 p3 feed l hl
    simp only [cubicFit] at hl
    rcases arcFitCore_mem _ _ _ _ _ _ hl with h | h
    · exact h
    · rcases List.mem_append.mp h with h2 | h2
      · exact ih _ _ _ _ _ _ h2
      · exact ih _ _ _ _ _ _ h2

theorem quadFit_mem : ∀ (fuel : ℕ) (p0 cp p3 : Pt) (feed : ℚ) (l : GLine),
    l ∈ quadFit fuel p0 cp p3 feed → isM2 l = false ∧ isM4S l = false := by
  intro fuel
  induction fuel with
  | zero =>
    intro p0 cp p3 feed l hl
    rcases arcFitCore_mem _ _ _ _ _ _ hl with h | h
    · exact h
    · simp at h
  | succ fuel ih =>
    intro p0 cp p3 feed l hl
    simp only [quadFit] at hl
    rcases arcFitCore_mem _ _ _ _ _ _ hl with h | h
    · exact h
    · rcases List.mem_append.mp h with h2 | h2
      · exact ih _ _ _ _ _ h2
      · exact ih _ _ _ _ _ h2

theorem emitCmd_mem (cfg : GenCfg) (ctx : TxCtx) (fuel : ℕ) (amt obx oby : ℚ)
    (nOf : ℕ → Pt) (cur : Option Pt) (cmd : RawCmd) (l : GLine)
    (hl : l ∈ (emitCmd cfg ctx fuel amt obx oby nOf cur cmd).1) :
    isM2 l = false ∧ (isM4S l = true → l = .m4s (sVal cfg)) := by
  cases cmd with
  | move p =>
    simp only [emitCmd, List.mem_cons, List.mem_singleton] at hl
    rcases hl with h | h | h
    · subst h; exact ⟨rfl, by intro hx; cases hx⟩
    · subst h; exact ⟨rfl, fun _ => rfl⟩
    · cases h
  | line p =>
    simp only [emitCmd, List.mem_singleton] at hl
    subst hl
    exact ⟨rfl, by intro hx; cases hx⟩
  | quad c p =>
    simp only [emitCmd] at hl
    cases cur with
    | none => simp at hl
    | some cp0 =>
      simp only at hl
      have := quadFit_mem _ _ _ _ _ _ hl
      exact ⟨this.1, by intro hx; rw [this.2] at hx; cases hx⟩
  | cubic c1 c2 p =>
    simp only [emitCmd] at hl
    cases cur with
    | none => simp at hl
    | some cp0 =>
      simp only at hl
      have := cubicFit_mem _ _ _ _ _ _ _ hl
      exact ⟨this.1, by intro hx; rw [this.2] at hx; cases hx⟩

theorem emitCmds_mem (cfg : GenCfg) (ctx : TxCtx) (fuel : ℕ) (amt obx oby : ℚ)
    (normals : ℕ → ℕ → Pt) :
    ∀ (raw : List RawCmd) (idx : ℕ) (cur : Option Pt) (l : GLine),
      l ∈ emitCmds cfg ctx fuel amt obx oby normals raw idx cur →
      isM2 l = false ∧ (isM4S l = true → l = .m4s (sVal cfg)) := by
  intro raw
  induction raw with
  | nil => intro idx cur l hl; simp [emitCmds] at hl
  | cons cmd rest ih =>
    intro idx cur l hl
    simp only [emitCmds] at hl
    rcases List.mem_append.mp hl with h | h
    · exact emitCmd_mem _ _ _ _ _ _ _ _ _ _ h
    · exact ih _ _ _ h

theorem genBody_mem (cfg : GenCfg) (ctx : TxCtx) (fuel : ℕ) (offsets : List (ℚ × ℚ))
    (amounts : List ℚ) (normals : ℕ → ℕ → Pt) (raw : List RawCmd) (l : GLine)
    (hl : l ∈ genBody cfg ctx fuel offsets amounts normals raw) :
    isM2 l = false ∧ (isM4S l = true → l = .m4s (sVal cfg)) := by
  simp only [genBody, List.mem_flatMap] at hl
  obtain ⟨p, _, hp⟩ := hl
  obtain ⟨b, _, hb⟩ := hp
  simp only [boldBlock, List.mem_append] at hb
  rcases hb with (hb | hb) | hb
  · rcases hb with hb
    split at hb
    · simp only [List.mem_singleton] at hb
      subst hb
      exact ⟨rfl, by intro hx; cases hx⟩
    · simp at hb
  · exact emitCmds_mem _ _ _ _ _ _ _ _ _ _ _ hb
  · simp only [List.mem_singleton] at hb
    subst hb
    exact ⟨rfl, by intro hx; cases hx⟩

theorem append_ends (l1 : List GLine) {l2 : List GLine} {x : GLine}
    (h : ∃ p, l2 = p ++ [x]) : ∃ p, l1 ++ l2 = p ++ [x] := by
  obtain ⟨p, hp⟩ := h
  exact ⟨l1 ++ p, by rw [hp, List.append_assoc]⟩

theorem genBody_ends_m5 (cfg : GenCfg) (ctx : TxCtx) (fuel : ℕ) (offsets : List (ℚ × ℚ))
    (amounts : List ℚ) (normals : ℕ → ℕ → Pt) (raw : List RawCmd)
    (hp : 1 ≤ cfg.passes) (hb : 1 ≤ cfg.boldRepeats) :
    ∃ pre, genBody cfg ctx fuel offsets amounts normals raw = pre ++ [GLine.m5] := by
  have h1 : cfg.passes = (cfg.passes - 1) + 1 := by omega
  have h2 : cfg.boldRepeats = (cfg.boldRepeats - 1) + 1 := by omega
  rw [genBody, h1, List.range_succ, List.flatMap_append]
  apply append_ends
  simp only [List.flatMap_cons, List.flatMap_nil, List.append_nil]
  rw [h2, List.range_succ, List.flatMap_append]
  apply append_ends
  simp only [List.flatMap_cons, List.flatMap_nil, List.append_nil, boldBlock]
  apply append_ends
  exact ⟨[], (List.nil_append _).symm⟩


theorem generate_no_m2 (cfg : GenCfg) (offsets : List (ℚ × ℚ)) (amounts : List ℚ)
    (normals : ℕ → ℕ → Pt) (raw : List RawCmd) (scale minYRaw rawWScaled : ℚ)
    (boxX boxY boxW boxH : ℚ) (fuel : ℕ) :
    (generate cfg offsets amounts normals raw scale minYRaw rawWScaled
      boxX boxY boxW boxH fuel).countP isM2 = 0 := by
  by_cases hraw : raw = []
  · simp [generate, hraw, isM2]
  · simp only [generate, hraw, if_false, List.countP_append]
    have h1 : (genPreamble cfg).countP isM2 = 0 := by
      simp [genPreamble, List.countP_cons, isM2]
    have h3 : genPostamble.countP isM2 = 0 := by
      simp [genPostamble, List.countP_cons, isM2]
    have h2 : (genBody cfg ⟨scale * (if boxW < rawWScaled then boxW / rawWScaled else 1),
        minYRaw, boxH, (if boxW < rawWScaled then boxW / rawWScaled else 1),
        boxX + (boxW - rawWScaled * (if boxW < rawWScaled then boxW / rawWScaled else 1)) / 2 +
          cfg.genOffsetX,
        boxY + (boxH - boxH * (if boxW < rawWScaled then boxW / rawWScaled else 1)) / 2 +
          cfg.genOffsetY,
        cfg.mirrorY⟩ fuel offsets amounts normals raw).countP isM2 = 0 := by
      rw [List.countP_eq_zero]
      intro l hl
      have := (genBody_mem _ _ _ _ _ _ _ l hl).1
      simp [this]
    rw [h1, h2, h3]

/-- C2 (amended): the program generated for a non-empty glyph geometry (with
at least one pass and one bold repeat) ends with `M5` followed by the fixed
trailer `; Job Complete`, `G90`, `G0 Z0`, `$H`, `$MD` — not with the
claimed `M5` / `G0 Z0` / `G0 X0 Y0` / `M2` sequence — and it contains no
`M2` line at all (so not exactly one).  The final `M5` comes from the last
pass/bold block, not from a postamble. -/
theorem C2_postamble (cfg : GenCfg) (offsets : List (ℚ × ℚ)) (amounts : List ℚ)
    (normals : ℕ → ℕ → Pt) (raw : List RawCmd) (scale minYRaw rawWScaled : ℚ)
    (boxX boxY boxW boxH : ℚ) (fuel : ℕ)
    (hraw : raw ≠ []) (hp : 1 ≤ cfg.passes) (hb : 1 ≤ cfg.boldRepeats) :
    (∃ pre, generate cfg offsets amounts normals raw scale minYRaw rawWScaled
        boxX boxY boxW boxH fuel =
      pre ++ [GLine.m5, GLine.comment, GLine.g90, GLine.g0z 0, GLine.home, GLine.md]) ∧
    (generate cfg offsets amounts normals raw scale minYRaw rawWScaled
      boxX boxY boxW boxH fuel).countP isM2 = 0 := by
  refine ⟨?_, generate_no_m2 cfg offsets amounts normals raw scale minYRaw rawWScaled
    boxX boxY boxW boxH fuel⟩
  simp only [generate, hraw, if_false]
  obtain ⟨pre, hpre⟩ := genBody_ends_m5 cfg
    ⟨scale * (if boxW < rawWScaled then boxW / rawWScaled else 1),
      minYRaw, boxH, (if boxW < rawWScaled then boxW / rawWScaled else 1),
      boxX + (boxW - rawWScaled * (if boxW < rawWScaled then boxW / rawWScaled else 1)) / 2 +
        cfg.genOffsetX,
      boxY + (boxH - boxH * (if boxW < rawWScaled then boxW / rawWScaled else 1)) / 2 +
        cfg.genOffsetY,
      cfg.mirrorY⟩ fuel offsets amounts normals raw hp hb
  rw [hpre]
  refine ⟨genPreamble cfg ++ pre, ?_⟩
  simp [genPostamble, List.append_assoc]

/-- Witness for C2 (amended): the concrete two-stroke program `progC2` ends
with the `M5` + trailer suffix and holds no `M2`. -/
theorem C2_witness :
    (∃ pre, progC2 =
      pre ++ [GLine.m5, GLine.comment, GLine.g90, GLine.g0z 0, GLine.home, GLine.md]) ∧
    progC2.countP isM2 = 0 := by
  have h := C2_postamble cfgC2 [(0, 0)] [0] (fun _ _ => ⟨0, 0⟩) rawC2 1 0 10 0 0 10 10 8
    (by simp [rawC2]) (by norm_num [cfgC2]) (by norm_num [cfgC2])
  simpa only [progC2] using h

/-- Counterexample for C2 as stated: the concrete generated program `progC2`
contains zero `M2` lines, not exactly one. -/
theorem C2_counterexample : progC2.countP isM2 ≠ 1 := by
  have h : progC2.countP isM2 = 0 := by
    simp only [progC2]
    exact generate_no_m2 cfgC2 [(0, 0)] [0] (fun _ _ => ⟨0, 0⟩) rawC2 1 0 10 0 0 10 10 8
  omega

/-- C6 (amended): every `M4 S…` line that `generate` emits carries the value
`int(power_percent / 100 · spindle_max)` — Python `int` truncation toward
zero, not `round`. -/
theorem C6_spindle_value (cfg : GenCfg) (offsets : List (ℚ × ℚ)) (amounts : List ℚ)
    (normals : ℕ → ℕ → Pt) (raw : List RawCmd) (scale minYRaw rawWScaled : ℚ)
    (boxX boxY boxW boxH : ℚ) (fuel : ℕ) (v : ℤ)
    (hv : GLine.m4s v ∈ generate cfg offsets amounts normals raw scale minYRaw rawWScaled
      boxX boxY boxW boxH fuel) :
    v = pyInt (cfg.laserPower / 100 * cfg.spindleMax) := by
  by_cases hraw : raw = []
  · simp [generate, hraw] at hv
  · simp only [generate, hraw, if_false, List.mem_append] at hv
    rcases hv with (hv | hv) | hv
    · simp [genPreamble] at hv
    · have h := (genBody_mem _ _ _ _ _ _ _ _ hv).2 rfl
      have : v = sVal cfg := by
        injection h
      rw [this, sVal]
    · simp [genPostamble] at hv

/-- Witness for C6 (amended): `progC6` (power 15 %, spindle max 999) emits
`M4 S149`, and `149 = int(15 / 100 · 999) = int(149.85)`. -/
theorem C6_witness :
    GLine.m4s 149 ∈ progC6 ∧ (149 : ℤ) = pyInt ((15 : ℚ) / 100 * 999) := by
  have hsv : sVal cfgC6 = 149 := by norm_num [sVal, cfgC6, pyInt]
  have hmem : GLine.m4s 149 ∈ progC6 := by
    have h : GLine.m4s (sVal cfgC6) ∈ progC6 := by
      simp [progC6, generate, rawC6, genPreamble, genPostamble, genBody, boldBlock,
        emitCmds, emitCmd, cfgC6]
    rwa [hsv] at h
  refine ⟨hmem, ?_⟩
  have h149 := C6_spindle_value cfgC6 [(0, 0)] [0] (fun _ _ => ⟨0, 0⟩) rawC6 1 0 8 0 0 8 10 8
    149 (by simpa only [progC6] using hmem)
  simpa [cfgC6] using h149

/-- Counterexample for C6 as stated: `progC6` emits the spindle value `149`,
but `round(15 / 100 · 999) = round(149.85) = 150`. -/
theorem C6_counterexample :
    GLine.m4s 149 ∈ progC6 ∧ (149 : ℤ) ≠ round ((15 : ℚ) / 100 * 999) := by
  constructor
  · have hsv : sVal cfgC6 = 149 := by norm_num [sVal, cfgC6, pyInt]
    have h : GLine.m4s (sVal cfgC6) ∈ progC6 := by
      simp [progC6, generate, rawC6, genPreamble, genPostamble, genBody, boldBlock,
        emitCmds, emitCmd, cfgC6]
    rwa [hsv] at h
  · rw [round_eq]
    norm_num

/-- C10: `get_statistics` never divides by zero.  For the empty placement
list it returns total `0`, coverage `0.0` and average text height `0.0`
without evaluating the coverage or mean formulas, and the divisions (by
`len(placements)` and by the board area) are reached only in the non-empty
branch, where the divisor `len(placements)` is positive. -/
theorem C10_statistics_guard (widthMm heightMm : ℚ) (ps : List Placement) :
    getStatistics widthMm heightMm [] = ⟨0, 0, 0⟩ ∧
    (ps ≠ [] →
      0 < ps.length ∧
      getStatistics widthMm heightMm ps =
        ⟨ps.length,
         pyRoundTo 1 ((ps.map (fun p => p.width * p.height)).sum / (widthMm * heightMm) * 100),
         pyRoundTo 2 ((ps.map (fun p => p.textHeightMm)).sum / ps.length)⟩) := by
  constructor
  · simp [getStatistics]
  · intro hne
    refine ⟨List.length_pos.mpr hne, ?_⟩
    simp [getStatistics, hne]

/-- Witness for C10: the empty board gives the all-zero record, and a
one-placement board takes the formula branch with positive divisor. -/
theorem C10_witness :
    getStatistics 100 10 [] = ⟨0, 0, 0⟩ ∧
    0 < psC10.length ∧
    getStatistics 100 10 psC10 =
      ⟨psC10.length,
       pyRoundTo 1 ((psC10.map (fun p => p.width * p.height)).sum / (100 * 10) * 100),
       pyRoundTo 2 ((psC10.map (fun p => p.textHeightMm)).sum / psC10.length)⟩ := by
  have h := C10_statistics_guard 100 10 psC10
  have hne : psC10 ≠ [] := by simp [psC10]
  exact ⟨h.1, (h.2 hne).1, (h.2 hne).2⟩

/-! ## Translation equivariance of the generator -/

theorem trPt_x (dx dy : ℚ) (p : Pt) : (trPt dx dy p).x = p.x + dx := rfl

theorem trPt_y (dx dy : ℚ) (p : Pt) : (trPt dx dy p).y = p.y + dy := rfl

theorem distSq_tr (dx dy : ℚ) (a b : Pt) :
    distSq (trPt dx dy a) (trPt dx dy b) = distSq a b := by
  simp only [distSq, trPt]
  ring

theorem ccDet_tr (dx dy : ℚ) (p0 p1 p2 : Pt) :
    ccDet (trPt dx dy p0) (trPt dx dy p1) (trPt dx dy p2) = ccDet p0 p1 p2 := by
  simp only [ccDet, trPt]
  ring

theorem cross2d_tr (dx dy : ℚ) (o a b : Pt) :
    cross2d (trPt dx dy o) (trPt dx dy a) (trPt dx dy b) = cross2d o a b := by
  simp only [cross2d, trPt]
  ring

theorem midPt_tr (dx dy : ℚ) (a b : Pt) :
    midPt (trPt dx dy a) (trPt dx dy b) = trPt dx dy (midPt a b) := by
  simp only [midPt, trPt, Pt.mk.injEq]
  constructor <;> ring

theorem cubicMid_tr (dx dy : ℚ) (p0 p1 p2 p3 : Pt) :
    cubicMid (trPt dx dy p0) (trPt dx dy p1) (trPt dx dy p2) (trPt dx dy p3) =
      trPt dx dy (cubicMid p0 p1 p2 p3) := by
  simp only [cubicMid, trPt, Pt.mk.injEq]
  constructor <;> ring

theorem quadMid_tr (dx dy : ℚ) (p0 cp p3 : Pt) :
    quadMid (trPt dx dy p0) (trPt dx dy cp) (trPt dx dy p3) =
      trPt dx dy (quadMid p0 cp p3) := by
  simp only [quadMid, trPt, Pt.mk.injEq]
  constructor <;> ring

theorem circumcenter_tr (dx dy : ℚ) (p0 p1 p2 : Pt) :
    circumcenter (trPt dx dy p0) (trPt dx dy p1) (trPt dx dy p2) =
      (circumcenter p0 p1 p2).map (trPt dx dy) := by
  simp only [circumcenter, ccDet_tr]
  by_cases hd : |ccDet p0 p1 p2| < 1 / 10000000000
  · rw [if_pos hd, if_pos hd]
    rfl
  · rw [if_neg hd, if_neg hd]
    have hne : ccDet p0 p1 p2 ≠ 0 := by
      intro h0
      apply hd
      rw [h0]
      norm_num
    rw [Option.map_some']
    refine congrArg some ?_
    simp only [trPt, Pt.mk.injEq, ccDet] at hne ⊢
    constructor <;> (field_simp; ring)

theorem arcFitCore_tr (dx dy : ℚ) (p0 mid p3 : Pt) (feed : ℚ) (onSplit : List GLine) :
    arcFitCore (trPt dx dy p0) (trPt dx dy mid) (trPt dx dy p3) feed
        (onSplit.map (translateLine dx dy)) =
      (arcFitCore p0 mid p3 feed onSplit).map (translateLine dx dy) := by
  simp only [arcFitCore, distSq_tr, circumcenter_tr]
  by_cases h1 : distSq p0 p3 < 1 / 1000000000000
  · rw [if_pos h1, if_pos h1]
    rfl
  · rw [if_neg h1, if_neg h1]
    rcases hc : circumcenter p0 mid p3 with _ | c
    · simp [translateLine, trPt]
    · simp only [Option.map_some', distSq_tr]
      by_cases h2 : distSq p0 c < 1 / 400
      · rw [if_pos h2, if_pos h2]
        simp [translateLine, trPt]
      · rw [if_neg h2, if_neg h2]
        by_cases h3 : arcErrExceeded (distSq mid c) (distSq p0 c) = true
        · rw [if_pos h3, if_pos h3]
        · rw [if_neg h3, if_neg h3]
          simp only [cross2d_tr, trPt_x, trPt_y, List.map_cons, List.map_nil, translateLine,
            List.cons.injEq, GLine.garc.injEq]
          norm_num

theorem quadFit_tr (dx dy : ℚ) :
    ∀ (fuel : ℕ) (p0 cp p3 : Pt) (feed : ℚ),
      quadFit fuel (trPt dx dy p0) (trPt dx dy cp) (trPt dx dy p3) feed =
        (quadFit fuel p0 cp p3 feed).map (translateLine dx dy) := by
  intro fuel
  induction fuel with
  | zero =>
    intro p0 cp p3 feed
    rw [quadFit, quadFit, quadMid_tr]
    exact arcFitCore_tr dx dy p0 (quadMid p0 cp p3) p3 feed []
  | succ fuel ih =>
    intro p0 cp p3 feed
    rw [quadFit, quadFit]
    simp only [midPt_tr, quadMid_tr, ih]
    rw [← List.map_append]
    exact arcFitCore_tr dx dy p0 (quadMid p0 cp p3) p3 feed _

theorem cubicFit_tr (dx dy : ℚ) :
    ∀ (fuel : ℕ) (p0 p1 p2 p3 : Pt) (feed : ℚ),
      cubicFit fuel (trPt dx dy p0) (trPt dx dy p1) (trPt dx dy p2) (trPt dx dy p3) feed =
        (cubicFit fuel p0 p1 p2 p3 feed).map (translateLine dx dy) := by
  intro fuel
  induction fuel with
  | zero =>
    intro p0 p1 p2 p3 feed
    rw [cubicFit, cubicFit, cubicMid_tr]
    exact arcFitCore_tr dx dy p0 (cubicMid p0 p1 p2 p3) p3 feed []
  | succ fuel ih =>
    intro p0 p1 p2 p3 feed
    rw [cubicFit, cubicFit]
    simp only [midPt_tr, cubicMid_tr, ih]
    rw [← List.map_append]
    exact arcFitCore_tr dx dy p0 (cubicMid p0 p1 p2 p3) p3 feed _

theorem txPt_tr (dx dy asc m bh fs oX oY : ℚ) (mir : Bool) (amt : ℚ) (nv : Pt)
    (obx oby : ℚ) (p : Pt) :
    txPt ⟨asc, m, bh, fs, oX + dx, oY + dy, mir⟩ amt nv obx oby p =
      trPt dx dy (txPt ⟨asc, m, bh, fs, oX, oY, mir⟩ amt nv obx oby p) := by
  cases mir <;>
    (simp only [txPt, trPt, Pt.mk.injEq, Bool.false_eq_true, if_false, if_true]
     constructor <;> ring)

theorem emitCmd_tr (cfg : GenCfg) (dx dy asc m bh fs oX oY : ℚ) (mir : Bool) (fuel : ℕ)
    (amt obx oby : ℚ) (nOf : ℕ → Pt) (cur : Option Pt) (cmd : RawCmd) :
    emitCmd cfg ⟨asc, m, bh, fs, oX + dx, oY + dy, mir⟩ fuel amt obx oby nOf
        (cur.map (trPt dx dy)) cmd =
      ((emitCmd cfg ⟨asc, m, bh, fs, oX, oY, mir⟩ fuel amt obx oby nOf cur cmd).1.map
        (translateLine dx dy),
       (emitCmd cfg ⟨asc, m, bh, fs, oX, oY, mir⟩ fuel amt obx oby nOf cur cmd).2.map
        (trPt dx dy)) := by
  cases cmd with
  | move p =>
    simp only [emitCmd, txPt_tr, List.map_cons, List.map_nil, translateLine, trPt_x, trPt_y,
      Option.map_some']
  | line p =>
    simp only [emitCmd, txPt_tr, List.map_cons, List.map_nil, translateLine, trPt_x, trPt_y,
      Option.map_some']
  | quad c p =>
    cases cur with
    | none =>
      simp only [Option.map_none', emitCmd, txPt_tr, List.map_nil, Option.map_some']
    | some cp0 =>
      simp only [Option.map_some', emitCmd, txPt_tr, quadFit_tr, Option.map_some']
  | cubic c1 c2 p =>
    cases cur with
    | none =>
      simp only [Option.map_none', emitCmd, txPt_tr, List.map_nil, Option.map_some']
    | some cp0 =>
      simp only [Option.map_some', emitCmd, txPt_tr, cubicFit_tr, Option.map_some']

theorem emitCmds_tr (cfg : GenCfg) (dx dy asc m bh fs oX oY : ℚ) (mir : Bool) (fuel : ℕ)
    (amt obx oby : ℚ) (normals : ℕ → ℕ → Pt) :
    ∀ (raw : List RawCmd) (idx : ℕ) (cur : Option Pt),
      emitCmds cfg ⟨asc, m, bh, fs, oX + dx, oY + dy, mir⟩ fuel amt obx oby normals raw idx
          (cur.map (trPt dx dy)) =
        (emitCmds cfg ⟨asc, m, bh, fs, oX, oY, mir⟩ fuel amt obx oby normals raw idx cur).map
          (translateLine dx dy) := by
  intro raw
  induction raw with
  | nil => intro idx cur; simp [emitCmds]
  | cons cmd rest ih =>
    intro idx cur
    simp only [emitCmds, emitCmd_tr]
    rw [ih (idx + 1) ((emitCmd cfg ⟨asc, m, bh, fs, oX, oY, mir⟩ fuel amt obx oby
      (normals idx) cur cmd).2)]
    rw [List.map_append]

theorem boldBlock_tr (cfg : GenCfg) (dx dy asc m bh fs oX oY : ℚ) (mir : Bool) (fuel : ℕ)
    (offsets : List (ℚ × ℚ)) (amounts : List ℚ) (normals : ℕ → ℕ → Pt)
    (raw : List RawCmd) (b : ℕ) :
    boldBlock cfg ⟨asc, m, bh, fs, oX + dx, oY + dy, mir⟩ fuel offsets amounts normals raw b =
      (boldBlock cfg ⟨asc, m, bh, fs, oX, oY, mir⟩ fuel offsets amounts normals raw b).map
        (translateLine dx dy) := by
  have hB := emitCmds_tr cfg dx dy asc m bh fs oX oY mir fuel
    (amounts.getD b 0) (offsets.getD b (0, 0)).1 (offsets.getD b (0, 0)).2 normals raw 0 none
  simp only [Option.map_none'] at hB
  simp only [boldBlock, List.map_append, hB]
  congr 1
  split <;> simp [translateLine]

theorem genBody_tr (cfg : GenCfg) (dx dy asc m bh fs oX oY : ℚ) (mir : Bool) (fuel : ℕ)
    (offsets : List (ℚ × ℚ)) (amounts : List ℚ) (normals : ℕ → ℕ → Pt)
    (raw : List RawCmd) :
    genBody cfg ⟨asc, m, bh, fs, oX + dx, oY + dy, mir⟩ fuel offsets amounts normals raw =
      (genBody cfg ⟨asc, m, bh, fs, oX, oY, mir⟩ fuel offsets amounts normals raw).map
        (translateLine dx dy) := by
  simp only [genBody, List.map_flatMap]
  refine congrArg _ (funext fun x => ?_)
  refine congrArg _ (funext fun b => ?_)
  exact boldBlock_tr cfg dx dy asc m bh fs oX oY mir fuel offsets amounts normals raw b

/-- C8: under identical configuration, glyph geometry and box size, the
program generated at box origin `(ox, oy)` is, line for line, the program
generated at the origin `(0, 0)` with every `G0`/`G1`/`G2`/`G3` X/Y target
translated by `(ox, oy)`; arc `I`/`J` offsets, Z moves, feeds and spindle
words are unchanged. -/
theorem C8_translation_equivariance (cfg : GenCfg) (offsets : List (ℚ × ℚ))
    (amounts : List ℚ) (normals : ℕ → ℕ → Pt) (raw : List RawCmd)
    (scale minYRaw rawWScaled : ℚ) (ox oy boxW boxH : ℚ) (fuel : ℕ) :
    generate cfg offsets amounts normals raw scale minYRaw rawWScaled ox oy boxW boxH fuel =
      (generate cfg offsets amounts normals raw scale minYRaw rawWScaled 0 0 boxW boxH
        fuel).map (translateLine ox oy) := by
  by_cases hraw : raw = []
  · simp [generate, hraw, translateLine]
  · simp only [generate, hraw, if_false, List.map_append]
    have hpre : (genPreamble cfg).map (translateLine ox oy) = genPreamble cfg := by
      simp [genPreamble, translateLine]
    have hpost : genPostamble.map (translateLine ox oy) = genPostamble := by
      simp [genPostamble, translateLine]
    rw [hpre, hpost]
    congr 1
    congr 1
    have hctx : (⟨scale * (if boxW < rawWScaled then boxW / rawWScaled else 1),
        minYRaw, boxH, (if boxW < rawWScaled then boxW / rawWScaled else 1),
        ox + (boxW - rawWScaled * (if boxW < rawWScaled then boxW / rawWScaled else 1)) / 2 +
          cfg.genOffsetX,
        oy + (boxH - boxH * (if boxW < rawWScaled then boxW / rawWScaled else 1)) / 2 +
          cfg.genOffsetY,
        cfg.mirrorY⟩ : TxCtx) =
        ⟨scale * (if boxW < rawWScaled then boxW / rawWScaled else 1),
        minYRaw, boxH, (if boxW < rawWScaled then boxW / rawWScaled else 1),
        (0 + (boxW - rawWScaled * (if boxW < rawWScaled then boxW / rawWScaled else 1)) / 2 +
          cfg.genOffsetX) + ox,
        (0 + (boxH - boxH * (if boxW < rawWScaled then boxW / rawWScaled else 1)) / 2 +
          cfg.genOffsetY) + oy,
        cfg.mirrorY⟩ := by
      congr 1 <;> ring
    rw [hctx]
    exact genBody_tr cfg ox oy _ _ _ _ _ _ cfg.mirrorY fuel offsets amounts normals raw

/-! ## In-bounds property of the origin returned by `find_empty_space` -/

theorem forceFitWidth_scales (activeW : ℚ) :
    ∀ (fuel : ℕ) (w h t w' h' t' : ℚ),
      forceFitWidth activeW fuel w h t = some (w', h', t') → 0 < t →
      0 < t' ∧ w' * t = w * t' ∧ h' * t = h * t' := by
  intro fuel
  induction fuel with
  | zero =>
    intro w h t w' h' t' heq ht
    simp only [forceFitWidth] at heq
    split at heq
    · cases heq
    · simp only [Option.some.injEq, Prod.mk.injEq] at heq
      obtain ⟨hw, hh, htt⟩ := heq
      subst hw; subst hh; subst htt
      exact ⟨ht, rfl, rfl⟩
  | succ fuel ih =>
    intro w h t w' h' t' heq ht
    have htne : t ≠ 0 := ne_of_gt ht
    simp only [forceFitWidth] at heq
    split at heq
    · have hnew : (0 : ℚ) < max (t * (4 / 5)) minHeight :=
        lt_of_lt_of_le (by norm_num [minHeight]) (le_max_right _ minHeight)
      obtain ⟨ht', hw', hh'⟩ := ih _ _ _ _ _ _ heq hnew
      have hside : ∀ a a' : ℚ,
          a' * (max (t * (4 / 5)) minHeight) = a * ((max (t * (4 / 5)) minHeight) / t) * t' →
          a' * t = a * t' := by
        intro a a' ha
        have h0 : a * ((max (t * (4 / 5)) minHeight) / t) * t' * t =
            a * (max (t * (4 / 5)) minHeight) * t' := by
          field_simp
        have heq2 : a' * t * (max (t * (4 / 5)) minHeight) =
            a * t' * (max (t * (4 / 5)) minHeight) := by
          calc a' * t * (max (t * (4 / 5)) minHeight)
              = a' * (max (t * (4 / 5)) minHeight) * t := by ring
            _ = a * ((max (t * (4 / 5)) minHeight) / t) * t' * t := by rw [ha]
            _ = a * (max (t * (4 / 5)) minHeight) * t' := h0
            _ = a * t' * (max (t * (4 / 5)) minHeight) := by ring
        exact mul_right_cancel₀ (ne_of_gt hnew) heq2
      exact ⟨ht', hside w w' hw', hside h h' hh'⟩
    · simp only [Option.some.injEq, Prod.mk.injEq] at heq
      obtain ⟨hw, hh, htt⟩ := heq
      subst hw; subst hh; subst htt
      exact ⟨ht, rfl, rfl⟩

theorem gridPositions_le (maxX maxY : ℚ) (hx : 0 ≤ maxX) (hy : 0 ≤ maxY) (p : ℕ × ℕ)
    (hp : p ∈ gridPositions maxX maxY) : (p.1 : ℚ) ≤ maxX ∧ (p.2 : ℚ) ≤ maxY := by
  have key : ∀ (q : ℚ) (n : ℕ), 0 ≤ q → n ∈ List.range' 0 (⌊q⌋.toNat / 2 + 1) 2 →
      (n : ℚ) ≤ q := by
    intro q n hq hn
    rw [List.mem_range'] at hn
    obtain ⟨i, hi, hni⟩ := hn
    have h2i : n ≤ ⌊q⌋.toNat := by omega
    calc (n : ℚ) ≤ (⌊q⌋.toNat : ℚ) := by exact_mod_cast h2i
      _ = ((⌊q⌋.toNat : ℤ) : ℚ) := by norm_cast
      _ = (⌊q⌋ : ℚ) := by
            rw [Int.toNat_of_nonneg]
            exact Int.le_floor.mpr (by simpa using hq)
      _ ≤ q := Int.floor_le q
  simp only [gridPositions, List.mem_flatMap, List.mem_map] at hp
  obtain ⟨x, hxmem, y, hymem, hxy⟩ := hp
  subst hxy
  exact ⟨key maxX x hx hxmem, key maxY y hy hymem⟩

/-- Supporting fact for C4's main clause: whenever `find_empty_space` (with a
shuffle that only reorders, i.e. returns elements of its input) answers an
origin `(x, y)` with final text height `t'`, that origin is inside the active
area for the correspondingly scaled dimensions `w·(t'/t)` and `h·(t'/t)`. -/
theorem findEmptySpace_origin_in_bounds (activeW activeH : ℚ) (ps : List Placement)
    (sh : List (ℕ × ℕ) → List (ℕ × ℕ)) (hsh : ∀ (l : List (ℕ × ℕ)) (p : ℕ × ℕ), p ∈ sh l → p ∈ l) :
    ∀ (fuel : ℕ) (w h t x y t' : ℚ), 0 < t →
      findEmptySpace activeW activeH ps sh fuel w h t = some (some (x, y, t')) →
      0 ≤ x ∧ 0 ≤ y ∧ x + w * (t' / t) ≤ activeW ∧ y + h * (t' / t) ≤ activeH := by
  intro fuel
  induction fuel with
  | zero =>
    intro w h t x y t' ht heq
    simp [findEmptySpace] at heq
  | succ fuel ih =>
    intro w h t x y t' ht heq
    have htne : t ≠ 0 := ne_of_gt ht
    simp only [findEmptySpace] at heq
    rcases hff : forceFitWidth activeW (fuel + 1) w h t with _ | ⟨⟨w1, h1, t1⟩⟩
    · rw [hff] at heq
      cases heq
    · rw [hff] at heq
      dsimp only at heq
      obtain ⟨ht1, hw1, hh1⟩ := forceFitWidth_scales activeW (fuel + 1) w h t w1 h1 t1 hff ht
      have ht1ne : t1 ≠ 0 := ne_of_gt ht1
      by_cases hw : activeW < w1
      · rw [if_pos hw] at heq
        simp at heq
      · rw [if_neg hw] at heq
        rcases hcand : scanCandidates activeW activeH ps sh w1 h1 with _ | p
        · rw [hcand] at heq
          dsimp only at heq
          by_cases hm : minHeight < t1
          · rw [if_pos hm] at heq
            set M := max (t1 * (4 / 5)) minHeight with hMdef
            have hnew : (0 : ℚ) < M := by
              rw [hMdef]
              exact lt_of_lt_of_le (by norm_num [minHeight]) (le_max_right _ _)
            have hnewne : M ≠ 0 := ne_of_gt hnew
            obtain ⟨hx0, hy0, hxb, hyb⟩ := ih _ _ _ x y t' hnew heq
            refine ⟨hx0, hy0, ?_, ?_⟩
            · have hco : w * (t' / t) = w1 * (M / t1) * (t' / M) := by
                field_simp
                linear_combination (-1 : ℚ) * t' * M * hw1
              rw [hco]
              exact hxb
            · have hco : h * (t' / t) = h1 * (M / t1) * (t' / M) := by
                field_simp
                linear_combination (-1 : ℚ) * t' * M * hh1
              rw [hco]
              exact hyb
          · rw [if_neg hm] at heq
            simp at heq
        · rw [hcand] at heq
          dsimp only at heq
          simp only [Option.some.injEq, Prod.mk.injEq] at heq
          obtain ⟨hxq, hyq, htq⟩ := heq
          subst hxq; subst hyq; subst htq
          simp only [scanCandidates] at hcand
          split at hcand
          · cases hcand
          · rename_i hnn
            push_neg at hnn
            have hmem : p ∈ sh (gridPositions (activeW - w1) (activeH - h1)) :=
              List.mem_of_find?_eq_some hcand
            have hmem2 := hsh _ _ hmem
            obtain ⟨hpx, hpy⟩ := gridPositions_le (activeW - w1) (activeH - h1)
              hnn.1 hnn.2 p hmem2
            have hwq : w * (t1 / t) = w1 := by
              field_simp
              linear_combination (-1 : ℚ) * hw1
            have hhq : h * (t1 / t) = h1 := by
              field_simp
              linear_combination (-1 : ℚ) * hh1
            refine ⟨by positivity, by positivity, ?_, ?_⟩
            · rw [hwq]
              linarith
            · rw [hhq]
              linarith
